import Mathlib

/-!
Verification of the snake simulation core (`src/main.rs`) against its
natural-language specification.

The Rust source is shallowly embedded below.  Machine integers (`u64`) are
modelled as `Nat`; the one place where unsigned wrap-around is relevant
(`snake.lenght - 1` in `movement`, which would underflow when `lenght = 0`)
is modelled with the explicit wrapping subtraction `sub64`.  The bevy ECS
queries are modelled as explicit lists: the single snake entity is a
`Snake` record plus a head `Pos`, the body entities are a `List Segment`,
and the food entities a `List Pos`.  Deferred `Commands` (spawns/despawns
apply after the system runs) are reflected in `eatLoop`, which never
increments the countdown of a segment spawned during the same pass.
-/

/-- Grid width, `GAME_WIDTH` in the source. -/
def GAME_WIDTH : Int := 12

/-- Grid height, `GAME_HEIGHT` in the source. -/
def GAME_HEIGHT : Int := 12

/-- Food cap, `FOOD_MAX_COUNT` in the source. -/
def FOOD_MAX_COUNT : Nat := 4

/-- Modulus of the `u64` type used for `Snake.lenght` and `Body.move_countdown`. -/
def U64_MOD : Nat := 2 ^ 64

/-- Wrapping `u64` subtraction (for values below `U64_MOD`). -/
def sub64 (a b : Nat) : Nat := (a + (U64_MOD - b % U64_MOD)) % U64_MOD

/-- The `Dir` enum of the source. -/
inductive Dir
  | Right
  | Up
  | Left
  | Down
deriving DecidableEq, Repr

/-- Function `Dir::rev` from the source. -/
def Dir.rev : Dir → Dir
  | Dir.Right => Dir.Left
  | Dir.Up => Dir.Down
  | Dir.Left => Dir.Right
  | Dir.Down => Dir.Up

/-- The `Pos` component of the source. -/
structure Pos where
  x : Int
  y : Int
deriving DecidableEq, Repr

/-- Function `Pos::move_dir` from the source: one step in direction `dir`, then the
four sequential wrap checks. -/
def Pos.move_dir (p : Pos) (dir : Dir) : Pos :=
  let p1 :=
    match dir with
    | Dir.Right => { p with x := p.x + 1 }
    | Dir.Up => { p with y := p.y - 1 }
    | Dir.Left => { p with x := p.x - 1 }
    | Dir.Down => { p with y := p.y + 1 }
  let p2 := if p1.x < 0 then { p1 with x := GAME_WIDTH - 1 } else p1
  let p3 := if p2.x > GAME_WIDTH - 1 then { p2 with x := 0 } else p2
  let p4 := if p3.y < 0 then { p3 with y := GAME_HEIGHT - 1 } else p3
  if p4.y > GAME_HEIGHT - 1 then { p4 with y := 0 } else p4

/-- Membership of a position in the `[0,GAME_WIDTH) x [0,GAME_HEIGHT)` grid. -/
def Pos.inBounds (p : Pos) : Prop :=
  0 ≤ p.x ∧ p.x < GAME_WIDTH ∧ 0 ≤ p.y ∧ p.y < GAME_HEIGHT

instance (p : Pos) : Decidable p.inBounds := by
  unfold Pos.inBounds; infer_instance

/-- The `Snake` component of the source (`lenght` is the source's spelling). -/
structure Snake where
  dir : Dir
  next_dir : Dir
  lenght : Nat
deriving DecidableEq, Repr

/-- A body entity: the `Body` component together with its `Pos` component. -/
structure Segment where
  move_countdown : Nat
  pos : Pos
deriving DecidableEq, Repr

/-- The whole world state: the snake entity (with its head `Pos`), the body
entities and the food entities. -/
structure GameState where
  snake : Snake
  head : Pos
  segments : List Segment
  foods : List Pos
deriving DecidableEq, Repr

/-- Countdown view of a segment list. -/
def cds (l : List Segment) : List Nat := l.map Segment.move_countdown

/-- Position view of a segment list. -/
def poss (l : List Segment) : List Pos := l.map Segment.pos

/-- The body of the first loop in `movement`: one segment's update, using the
head position as it is before the head moves (`pos.move_to(&head)`) and the
`u64` expression `snake.lenght - 1`. -/
def stepSegment (head : Pos) (lenght : Nat) (s : Segment) : Segment :=
  if 0 < s.move_countdown then { s with move_countdown := s.move_countdown - 1 }
  else { move_countdown := sub64 lenght 1, pos := head }

/-- All segments after the first loop of `movement`. -/
def movedSegments (g : GameState) : List Segment :=
  g.segments.map (stepSegment g.head g.snake.lenght)

/-- The head after `head.move_dir(&snake.next_dir)`. -/
def movedHead (g : GameState) : Pos := g.head.move_dir g.snake.next_dir

/-- The `dead` flag computed in `movement`: the moved head equals the
position of some segment as already updated by the first loop. -/
def deadTick (g : GameState) : Prop :=
  ∃ s ∈ movedSegments g, s.pos = movedHead g

instance (g : GameState) : Decidable (deadTick g) := by
  unfold deadTick; infer_instance

/-- The `movement` system of the source, for one tick: first loop updates
every segment, then the head moves and `snake.dir` is committed, then the
collision check runs; on death `lenght` is zeroed and all segments despawn. -/
def movement (g : GameState) : GameState :=
  if deadTick g then
    { snake := { dir := g.snake.next_dir, next_dir := g.snake.next_dir, lenght := 0 },
      head := movedHead g, segments := [], foods := g.foods }
  else
    { snake := { dir := g.snake.next_dir, next_dir := g.snake.next_dir,
                 lenght := g.snake.lenght },
      head := movedHead g, segments := movedSegments g, foods := g.foods }

/-- Countdown increment applied to every existing segment on a growth event
(`segment.move_countdown += 1`). -/
def incCountdown (s : Segment) : Segment :=
  { s with move_countdown := s.move_countdown + 1 }

/-- The food loop of `eat_food`.  `lenght` is the snake's running length,
`segs` the pre-existing body entities (the only ones visible to the
`segments` query), `newsegs` the bodies spawned through `Commands` during
this pass (not visible to the query, hence never incremented here), and
`kept` the foods that were not eaten. -/
def eatLoop (head : Pos) : Nat → List Segment → List Segment → List Pos → List Pos →
    Nat × List Segment × List Pos
  | lenght, segs, newsegs, [], kept => (lenght, segs ++ newsegs, kept)
  | lenght, segs, newsegs, f :: rest, kept =>
    if head = f then
      eatLoop head (lenght + 1) (segs.map incCountdown)
        (newsegs ++ [{ move_countdown := lenght + 1, pos := head }]) rest kept
    else
      eatLoop head lenght segs newsegs rest (kept ++ [f])

/-- The `eat_food` system of the source: for each food under the head, every
existing segment's countdown is incremented, the food despawns, a new body
spawns at the head with countdown `snake.lenght + 1`, and `snake.lenght`
is incremented. -/
def eat_food (g : GameState) : GameState :=
  let r := eatLoop g.head g.snake.lenght g.segments [] g.foods []
  { snake := { dir := g.snake.dir, next_dir := g.snake.next_dir, lenght := r.1 },
    head := g.head, segments := r.2.1, foods := r.2.2 }

/-- The `input` system of the source, for one already-decoded direction:
the intent is stored in `next_dir` unless it is the reverse of the current
direction. -/
def input (d : Dir) (g : GameState) : GameState :=
  if d ≠ g.snake.dir.rev then
    { g with snake := { g.snake with next_dir := d } }
  else g

/-- The occupancy query of `spawn_food` (`stuff : Query<&Pos>`): the head,
every segment position and every food position. -/
def occupiedPositions (g : GameState) : List Pos :=
  g.head :: (poss g.segments ++ g.foods)

/-- The retry loop of `spawn_food`: the first draw that collides with no
occupied position is accepted. -/
def spawnLoop (occ : List Pos) : List Pos → Option Pos
  | [] => none
  | p :: rest => if p ∈ occ then spawnLoop occ rest else some p

/-- The `spawn_food` system of the source on one firing of its timer, with
the stream of random draws made explicit: no-op unless the food count is
below `FOOD_MAX_COUNT`; otherwise up to 5 draws are tried and the first
unoccupied one spawns a food. -/
def spawn_food (draws : List Pos) (g : GameState) : GameState :=
  if g.foods.length < FOOD_MAX_COUNT then
    match spawnLoop (occupiedPositions g) (draws.take 5) with
    | some p => { g with foods := g.foods ++ [p] }
    | none => g
  else g

/-- The state built by `init`: snake of length 0 at the origin moving right,
no segments, no foods. -/
def initState : GameState :=
  { snake := { dir := Dir.Right, next_dir := Dir.Right, lenght := 0 },
    head := { x := 0, y := 0 }, segments := [], foods := [] }

/-- One full simulation tick as scheduled by the source: the `movement`
system (PreUpdate) followed by the `eat_food` system (Update) in the same
frame. -/
def tickStep (g : GameState) : GameState := eat_food (movement g)

/-- States reachable by the game loop: the initial state, simulation ticks,
the per-frame `eat_food` pass, food spawns (draws are produced by
`Pos::random`, hence in bounds), and direction intents. -/
inductive Reachable : GameState → Prop
  | init : Reachable initState
  | tick {g : GameState} : Reachable g → Reachable (tickStep g)
  | eat {g : GameState} : Reachable g → Reachable (eat_food g)
  | spawn {g : GameState} (draws : List Pos) (hb : ∀ p ∈ draws, p.inBounds) :
      Reachable g → Reachable (spawn_food draws g)
  | steer {g : GameState} (d : Dir) : Reachable g → Reachable (input d g)

/-- Default segment used with `List.getD` in indexed statements. -/
def dummySeg : Segment := { move_countdown := 0, pos := { x := 0, y := 0 } }

/-- The structural invariant maintained by the game loop.  `a = 0` is the
shape holding between frames and right after `movement`; `a = 1` is the
shape right after a growth event (countdowns shifted up by one, the new
segment sitting on the head with the maximal countdown). -/
structure InvA (a : Nat) (g : GameState) : Prop where
  len_eq : g.snake.lenght = g.segments.length
  cd_nodup : (cds g.segments).Nodup
  cd_bound : ∀ s ∈ g.segments,
    a ≤ s.move_countdown ∧ s.move_countdown < g.segments.length + a
  pos_nodup : (poss g.segments).Nodup
  head_cond : ∀ s ∈ g.segments, s.pos = g.head →
    a = 1 ∧ s.move_countdown = g.segments.length
  head_in : g.head.inBounds
  segs_in : ∀ s ∈ g.segments, s.pos.inBounds
  foods_nodup : g.foods.Nodup

/-- Full between-frame invariant: the structural invariant in one of its
two phases, and no food under the head. -/
def J (g : GameState) : Prop := (InvA 0 g ∨ InvA 1 g) ∧ g.head ∉ g.foods

lemma sub64_one (n : Nat) (h1 : 1 ≤ n) (h2 : n < U64_MOD) : sub64 n 1 = n - 1 := by
  unfold sub64
  have e1 : 1 % U64_MOD = 1 := by unfold U64_MOD; norm_num
  rw [e1]
  have e2 : n + (U64_MOD - 1) = (n - 1) + U64_MOD := by
    have : 1 ≤ U64_MOD := by unfold U64_MOD; norm_num
    omega
  rw [e2, Nat.add_mod_right, Nat.mod_eq_of_lt (by omega)]

lemma movement_snake_dir (g : GameState) :
    (movement g).snake.dir = g.snake.next_dir := by
  unfold movement; split <;> rfl

lemma movement_snake_next_dir (g : GameState) :
    (movement g).snake.next_dir = g.snake.next_dir := by
  unfold movement; split <;> rfl

lemma movement_head (g : GameState) : (movement g).head = movedHead g := by
  unfold movement; split <;> rfl

lemma movement_foods (g : GameState) : (movement g).foods = g.foods := by
  unfold movement; split <;> rfl

lemma Pos.move_dir_inBounds (p : Pos) (d : Dir) (h : p.inBounds) :
    (p.move_dir d).inBounds := by
  obtain ⟨x, y⟩ := p
  obtain ⟨h1, h2, h3, h4⟩ := h
  simp only [GAME_WIDTH, GAME_HEIGHT] at h2 h4
  cases d <;>
    · simp only [Pos.move_dir, Pos.inBounds, GAME_WIDTH, GAME_HEIGHT]
      split_ifs <;> simp_all <;> omega

lemma eatLoop_no_match (head : Pos) (lenght : Nat) (segs newsegs : List Segment) :
    ∀ (foods kept : List Pos), head ∉ foods →
      eatLoop head lenght segs newsegs foods kept = (lenght, segs ++ newsegs, kept ++ foods)
  | [], kept, _ => by simp [eatLoop]
  | f :: rest, kept, h => by
    have hne : head ≠ f := fun e => h (by simp [e])
    have hrest : head ∉ rest := fun hm => h (List.mem_cons_of_mem f hm)
    simp only [eatLoop, if_neg hne]
    rw [eatLoop_no_match head lenght segs newsegs rest (kept ++ [f]) hrest]
    simp

lemma eatLoop_skip (head : Pos) (lenght : Nat) (segs newsegs : List Segment) :
    ∀ (pre rest kept : List Pos), head ∉ pre →
      eatLoop head lenght segs newsegs (pre ++ rest) kept =
        eatLoop head lenght segs newsegs rest (kept ++ pre)
  | [], rest, kept, _ => by simp
  | f :: pre', rest, kept, h => by
    have hne : head ≠ f := fun e => h (by simp [e])
    have hpre : head ∉ pre' := fun hm => h (List.mem_cons_of_mem f hm)
    simp only [List.cons_append, eatLoop, if_neg hne, List.append_eq]
    rw [eatLoop_skip head lenght segs newsegs pre' rest (kept ++ [f]) hpre]
    simp

/-- Characterisation of `eat_food` when exactly one food lies under the
head (the only case arising in play, since food positions never repeat). -/
lemma eat_food_single (g : GameState) (l1 l2 : List Pos)
    (hf : g.foods = l1 ++ g.head :: l2) (h1 : g.head ∉ l1) (h2 : g.head ∉ l2) :
    eat_food g =
      { snake := { dir := g.snake.dir, next_dir := g.snake.next_dir,
                   lenght := g.snake.lenght + 1 },
        head := g.head,
        segments := g.segments.map incCountdown
          ++ [{ move_countdown := g.snake.lenght + 1, pos := g.head }],
        foods := l1 ++ l2 } := by
  unfold eat_food
  rw [hf, eatLoop_skip g.head g.snake.lenght g.segments [] l1 (g.head :: l2) [] h1]
  simp only [eatLoop, if_true, List.nil_append]
  rw [eatLoop_no_match g.head (g.snake.lenght + 1) (g.segments.map incCountdown)
    [{ move_countdown := g.snake.lenght + 1, pos := g.head }] l2 l1 h2]

/-- Characterisation of `eat_food` when no food lies under the head: the
state is untouched. -/
lemma eat_food_none (g : GameState) (h : g.head ∉ g.foods) : eat_food g = g := by
  unfold eat_food
  rw [eatLoop_no_match g.head g.snake.lenght g.segments [] g.foods [] h]
  simp

/-- C2: A growth event (exactly one food under the head) increments every
existing segment's countdown by 1, appends one new segment at the current
head position whose countdown is the pre-growth `snake.lenght + 1`, and
then increments `snake.lenght`; the eaten food is removed and nothing else
changes. -/
theorem C2_growth_event (g : GameState) (l1 l2 : List Pos)
    (hf : g.foods = l1 ++ g.head :: l2) (h1 : g.head ∉ l1) (h2 : g.head ∉ l2) :
    eat_food g =
      { snake := { dir := g.snake.dir, next_dir := g.snake.next_dir,
                   lenght := g.snake.lenght + 1 },
        head := g.head,
        segments := g.segments.map
            (fun s => { s with move_countdown := s.move_countdown + 1 })
          ++ [{ move_countdown := g.snake.lenght + 1, pos := g.head }],
        foods := l1 ++ l2 } := by
  rw [eat_food_single g l1 l2 hf h1 h2]
  rfl

/-- Witness for C2 at a concrete length-2 state eating the middle of three
foods. -/
theorem C2_growth_event_witness :
    eat_food { snake := { dir := Dir.Right, next_dir := Dir.Right, lenght := 2 },
               head := { x := 3, y := 4 },
               segments := [{ move_countdown := 1, pos := { x := 2, y := 4 } },
                            { move_countdown := 0, pos := { x := 2, y := 3 } }],
               foods := [{ x := 0, y := 0 }, { x := 3, y := 4 }, { x := 7, y := 7 }] } =
      { snake := { dir := Dir.Right, next_dir := Dir.Right, lenght := 3 },
        head := { x := 3, y := 4 },
        segments := [{ move_countdown := 2, pos := { x := 2, y := 4 } },
                     { move_countdown := 1, pos := { x := 2, y := 3 } },
                     { move_countdown := 3, pos := { x := 3, y := 4 } }],
        foods := [{ x := 0, y := 0 }, { x := 7, y := 7 }] } :=
  (C2_growth_event
    { snake := { dir := Dir.Right, next_dir := Dir.Right, lenght := 2 },
      head := { x := 3, y := 4 },
      segments := [{ move_countdown := 1, pos := { x := 2, y := 4 } },
                   { move_countdown := 0, pos := { x := 2, y := 3 } }],
      foods := [{ x := 0, y := 0 }, { x := 3, y := 4 }, { x := 7, y := 7 }] }
    [{ x := 0, y := 0 }] [{ x := 7, y := 7 }] rfl (by decide) (by decide)).trans
    (by decide)

lemma spawnLoop_some_not_occ (occ : List Pos) :
    ∀ (l : List Pos) (p : Pos), spawnLoop occ l = some p → p ∉ occ ∧ p ∈ l
  | [], p, h => by simp [spawnLoop] at h
  | q :: rest, p, h => by
    by_cases hq : q ∈ occ
    · have h' : spawnLoop occ rest = some p := by
        simpa [spawnLoop, if_pos hq] using h
      obtain ⟨hocc, hmem⟩ := spawnLoop_some_not_occ occ rest p h'
      exact ⟨hocc, List.mem_cons_of_mem q hmem⟩
    · have : q = p := by simpa [spawnLoop, if_neg hq] using h
      exact this ▸ ⟨hq, by simp⟩

lemma spawnLoop_all_occ (occ : List Pos) :
    ∀ (l : List Pos), (∀ q ∈ l, q ∈ occ) → spawnLoop occ l = none
  | [], _ => rfl
  | q :: rest, h => by
    simp only [spawnLoop]
    rw [if_pos (h q (by simp))]
    exact spawnLoop_all_occ occ rest fun r hr => h r (by simp [hr])

lemma spawnLoop_skip (occ : List Pos) :
    ∀ (pre rest : List Pos), (∀ q ∈ pre, q ∈ occ) →
      spawnLoop occ (pre ++ rest) = spawnLoop occ rest
  | [], rest, _ => rfl
  | q :: pre', rest, h => by
    simp only [List.cons_append, spawnLoop]
    rw [if_pos (h q (by simp))]
    exact spawnLoop_skip occ pre' rest fun r hr => h r (by simp [hr])

/-- C9: `spawn_food` spawns nothing when the food count has reached
`FOOD_MAX_COUNT` (whatever empty cells exist); otherwise it consults at
most 5 draws; if every consulted draw is occupied nothing spawns; any
spawned food is the first unoccupied draw and its position differs from the
head, every segment position and every existing food position. -/
theorem C9_spawn_rules (g : GameState) (draws : List Pos) (p : Pos)
    (pre post : List Pos) :
    (g.foods.length = FOOD_MAX_COUNT → spawn_food draws g = g)
  ∧ spawn_food draws g = spawn_food (draws.take 5) g
  ∧ ((∀ q ∈ draws.take 5, q ∈ occupiedPositions g) → spawn_food draws g = g)
  ∧ ((spawn_food draws g).foods = g.foods ++ [p] →
      p ≠ g.head ∧ p ∉ poss g.segments ∧ p ∉ g.foods ∧
        g.foods.length < FOOD_MAX_COUNT)
  ∧ (g.foods.length < FOOD_MAX_COUNT → p ∉ occupiedPositions g →
      draws = pre ++ p :: post → (∀ q ∈ pre, q ∈ occupiedPositions g) →
      pre.length < 5 →
      (spawn_food draws g).foods = g.foods ++ [p]) := by
  refine ⟨fun hcap => ?_, ?_, fun hall => ?_, fun hres => ?_,
    fun hlt hnocc hdec hpre hlen => ?_⟩
  · unfold spawn_food
    rw [if_neg (by omega)]
  · unfold spawn_food
    rw [List.take_take]
    norm_num
  · unfold spawn_food
    by_cases hc : g.foods.length < FOOD_MAX_COUNT
    · rw [if_pos hc, spawnLoop_all_occ _ _ hall]
    · rw [if_neg hc]
  · unfold spawn_food at hres
    by_cases hc : g.foods.length < FOOD_MAX_COUNT
    · rw [if_pos hc] at hres
      rcases e : spawnLoop (occupiedPositions g) (draws.take 5) with _ | q
      · rw [e] at hres
        have := congrArg List.length hres
        simp at this
      · rw [e] at hres
        have hq : q = p := by
          have h1 : g.foods ++ [q] = g.foods ++ [p] := hres
          simpa using h1
        subst hq
        have hocc := (spawnLoop_some_not_occ _ _ _ e).1
        unfold occupiedPositions at hocc
        simp only [List.mem_cons, List.mem_append, not_or] at hocc
        exact ⟨fun he => hocc.1 he, hocc.2.1, hocc.2.2, hc⟩
    · rw [if_neg hc] at hres
      have := congrArg List.length hres
      simp at this
  · subst hdec
    have htake : (pre ++ p :: post).take 5 = pre ++ p :: post.take (4 - pre.length) := by
      rw [List.take_append_eq_append_take, List.take_of_length_le (by omega)]
      congr 1
      obtain ⟨k, hk⟩ : ∃ k, 5 - pre.length = k + 1 := ⟨4 - pre.length, by omega⟩
      rw [hk, List.take_succ_cons]
      congr 2
      omega
    unfold spawn_food
    rw [if_pos hlt, htake, spawnLoop_skip _ _ _ hpre]
    simp only [spawnLoop]
    rw [if_neg hnocc]

/-- Witness for C9: a full board of 4 foods blocks spawning; a state with
room spawns the second draw after the first collides with the head. -/
theorem C9_spawn_rules_witness :
    (spawn_food [{ x := 5, y := 5 }]
      { snake := { dir := Dir.Right, next_dir := Dir.Right, lenght := 0 },
        head := { x := 0, y := 0 }, segments := [],
        foods := [{ x := 1, y := 1 }, { x := 2, y := 2 },
                  { x := 3, y := 3 }, { x := 4, y := 4 }] } =
      { snake := { dir := Dir.Right, next_dir := Dir.Right, lenght := 0 },
        head := { x := 0, y := 0 }, segments := [],
        foods := [{ x := 1, y := 1 }, { x := 2, y := 2 },
                  { x := 3, y := 3 }, { x := 4, y := 4 }] })
  ∧ (spawn_food [{ x := 0, y := 0 }, { x := 5, y := 5 }] initState).foods =
      initState.foods ++ [{ x := 5, y := 5 }] :=
  ⟨(C9_spawn_rules
      { snake := { dir := Dir.Right, next_dir := Dir.Right, lenght := 0 },
        head := { x := 0, y := 0 }, segments := [],
        foods := [{ x := 1, y := 1 }, { x := 2, y := 2 },
                  { x := 3, y := 3 }, { x := 4, y := 4 }] }
      [{ x := 5, y := 5 }] { x := 5, y := 5 } [] []).1 rfl,
    (C9_spawn_rules initState [{ x := 0, y := 0 }, { x := 5, y := 5 }]
      { x := 5, y := 5 } [{ x := 0, y := 0 }] []).2.2.2.2
      (by decide) (by decide) rfl (by decide) (by decide)⟩

/-- C1: In one tick there is an intermediate segment list, of the same
length, in which every segment with positive countdown only lost 1 from its
countdown and kept its position, and every segment with countdown 0 sits at
the head position captured before the head moved, with countdown reset to
`snake.lenght - 1`; only after all segments are so processed does the head
move by `next_dir`, and self-collision is decided afterwards, against the
moved head and the processed segments. -/
theorem C1_movement_order (g : GameState)
    (h1 : 1 ≤ g.snake.lenght) (h2 : g.snake.lenght < U64_MOD) :
    ∃ segs' : List Segment,
      segs'.length = g.segments.length
    ∧ (∀ i, i < g.segments.length →
        (1 ≤ (g.segments.getD i dummySeg).move_countdown →
          segs'.getD i dummySeg =
            { move_countdown := (g.segments.getD i dummySeg).move_countdown - 1,
              pos := (g.segments.getD i dummySeg).pos })
      ∧ ((g.segments.getD i dummySeg).move_countdown = 0 →
          segs'.getD i dummySeg =
            { move_countdown := g.snake.lenght - 1, pos := g.head }))
    ∧ (movement g).head = g.head.move_dir g.snake.next_dir
    ∧ ((∃ s ∈ segs', s.pos = g.head.move_dir g.snake.next_dir) →
        (movement g).segments = [] ∧ (movement g).snake.lenght = 0)
    ∧ ((∀ s ∈ segs', s.pos ≠ g.head.move_dir g.snake.next_dir) →
        (movement g).segments = segs' ∧ (movement g).snake.lenght = g.snake.lenght) := by
  refine ⟨movedSegments g, by simp [movedSegments], fun i hi => ?_, movement_head g, ?_, ?_⟩
  · have hi' : i < (movedSegments g).length := by simpa [movedSegments] using hi
    have e1 : g.segments.getD i dummySeg = g.segments[i] :=
      List.getD_eq_getElem _ _ hi
    have e2 : (movedSegments g).getD i dummySeg =
        stepSegment g.head g.snake.lenght (g.segments[i]) := by
      rw [List.getD_eq_getElem _ _ hi']
      simp [movedSegments]
    rw [e1, e2]
    constructor
    · intro hcd
      unfold stepSegment
      rw [if_pos (by omega)]
    · intro hcd
      unfold stepSegment
      rw [if_neg (by omega), sub64_one _ h1 h2]
  · intro hdead
    have : deadTick g := hdead
    unfold movement
    rw [if_pos this]
    exact ⟨rfl, rfl⟩
  · intro hnone
    have : ¬ deadTick g := by
      intro ⟨s, hs, he⟩
      exact hnone s hs he
    unfold movement
    rw [if_neg this]
    exact ⟨rfl, rfl⟩

/-- Witness for C1 at a concrete length-1 state whose segment has countdown
0 (it teleports) while the head advances from (3,3). -/
theorem C1_movement_order_witness :
    1 ≤ (1 : Nat) ∧ (1 : Nat) < U64_MOD
  ∧ (∃ segs' : List Segment,
      segs'.length = ([{ move_countdown := 0, pos := { x := 2, y := 3 } }] : List Segment).length
    ∧ (∀ i, i < ([{ move_countdown := 0, pos := { x := 2, y := 3 } }] : List Segment).length →
        (1 ≤ (([{ move_countdown := 0, pos := { x := 2, y := 3 } }] : List Segment).getD i
            dummySeg).move_countdown →
          segs'.getD i dummySeg =
            { move_countdown := (([{ move_countdown := 0, pos := { x := 2, y := 3 } }] :
                List Segment).getD i dummySeg).move_countdown - 1,
              pos := (([{ move_countdown := 0, pos := { x := 2, y := 3 } }] :
                List Segment).getD i dummySeg).pos })
      ∧ ((([{ move_countdown := 0, pos := { x := 2, y := 3 } }] : List Segment).getD i
            dummySeg).move_countdown = 0 →
          segs'.getD i dummySeg =
            { move_countdown := 1 - 1, pos := { x := 3, y := 3 } }))
    ∧ (movement { snake := { dir := Dir.Right, next_dir := Dir.Right, lenght := 1 },
                  head := { x := 3, y := 3 },
                  segments := [{ move_countdown := 0, pos := { x := 2, y := 3 } }],
                  foods := [] }).head =
        Pos.move_dir { x := 3, y := 3 } Dir.Right
    ∧ ((∃ s ∈ segs', s.pos = Pos.move_dir { x := 3, y := 3 } Dir.Right) →
        (movement { snake := { dir := Dir.Right, next_dir := Dir.Right, lenght := 1 },
                    head := { x := 3, y := 3 },
                    segments := [{ move_countdown := 0, pos := { x := 2, y := 3 } }],
                    foods := [] }).segments = []
      ∧ (movement { snake := { dir := Dir.Right, next_dir := Dir.Right, lenght := 1 },
                    head := { x := 3, y := 3 },
                    segments := [{ move_countdown := 0, pos := { x := 2, y := 3 } }],
                    foods := [] }).snake.lenght = 0)
    ∧ ((∀ s ∈ segs', s.pos ≠ Pos.move_dir { x := 3, y := 3 } Dir.Right) →
        (movement { snake := { dir := Dir.Right, next_dir := Dir.Right, lenght := 1 },
                    head := { x := 3, y := 3 },
                    segments := [{ move_countdown := 0, pos := { x := 2, y := 3 } }],
                    foods := [] }).segments = segs'
      ∧ (movement { snake := { dir := Dir.Right, next_dir := Dir.Right, lenght := 1 },
                    head := { x := 3, y := 3 },
                    segments := [{ move_countdown := 0, pos := { x := 2, y := 3 } }],
                    foods := [] }).snake.lenght = 1)) :=
  ⟨by decide, by decide,
    C1_movement_order
      { snake := { dir := Dir.Right, next_dir := Dir.Right, lenght := 1 },
        head := { x := 3, y := 3 },
        segments := [{ move_countdown := 0, pos := { x := 2, y := 3 } }],
        foods := [] } (by decide) (by decide)⟩

lemma nodup_map_iff_pairwise {α β : Type} (f : α → β) (l : List α) :
    (l.map f).Nodup ↔ l.Pairwise (fun s t => f s ≠ f t) := by
  unfold List.Nodup
  exact List.pairwise_map

/-- Pigeonhole bound used to keep `snake.lenght` inside the `u64` range: a
duplicate-free list of in-bounds positions has at most 144 elements. -/
lemma nodup_inBounds_length_le (l : List Pos) (hn : l.Nodup)
    (hb : ∀ p ∈ l, p.inBounds) : l.length ≤ 144 := by
  classical
  set S : Finset Pos :=
    (Finset.Icc (0 : Int) 11 ×ˢ Finset.Icc (0 : Int) 11).image
      (fun q : Int × Int => Pos.mk q.1 q.2) with hS
  have hsub : l.toFinset ⊆ S := by
    intro p hp
    rw [List.mem_toFinset] at hp
    obtain ⟨h1, h2, h3, h4⟩ := hb p hp
    simp only [GAME_WIDTH, GAME_HEIGHT] at h2 h4
    simp only [hS, Finset.mem_image, Finset.mem_product, Finset.mem_Icc]
    exact ⟨(p.x, p.y), ⟨⟨h1, by omega⟩, ⟨h3, by omega⟩⟩, by cases p; rfl⟩
  have hcard : S.card ≤ 144 := by
    calc S.card ≤ (Finset.Icc (0 : Int) 11 ×ˢ Finset.Icc (0 : Int) 11).card :=
          Finset.card_image_le
    _ = 144 := by
          rw [Finset.card_product]
          simp [Int.card_Icc]
  have hle := Finset.card_le_card hsub
  rw [List.toFinset_card_of_nodup hn] at hle
  omega

lemma J_len_eq {g : GameState} (h : J g) :
    g.snake.lenght = g.segments.length :=
  h.1.elim (fun h0 => h0.len_eq) (fun h1 => h1.len_eq)

/-- The `movement` system turns either phase of the invariant into the
`a = 0` phase (on death trivially, otherwise because at most one countdown
is 0, that segment teleports onto the not-yet-moved head cell which no
other segment occupies, and the survivor check is exactly the absence of a
segment under the moved head). -/
lemma movement_invA {a : Nat} {g : GameState} (ha : a ≤ 1) (hInv : InvA a g) :
    InvA 0 (movement g) := by
  by_cases hd : deadTick g
  · unfold movement
    rw [if_pos hd]
    exact { len_eq := rfl, cd_nodup := List.nodup_nil, cd_bound := by simp,
            pos_nodup := List.nodup_nil, head_cond := by simp,
            head_in := Pos.move_dir_inBounds _ _ hInv.head_in,
            segs_in := by simp, foods_nodup := hInv.foods_nodup }
  · have hposmem : ∀ p ∈ poss g.segments, p.inBounds := by
      intro p hp
      obtain ⟨s, hs, rfl⟩ := List.mem_map.mp hp
      exact hInv.segs_in s hs
    have hW : g.segments.length < U64_MOD := by
      have h144 := nodup_inBounds_length_le (poss g.segments) hInv.pos_nodup hposmem
      have : (poss g.segments).length = g.segments.length := List.length_map _ _
      have hbig : (144 : Nat) < U64_MOD := by unfold U64_MOD; norm_num
      omega
    have hstep_cd : ∀ s ∈ g.segments,
        (stepSegment g.head g.snake.lenght s).move_countdown =
          if 0 < s.move_countdown then s.move_countdown - 1
          else g.segments.length - 1 := by
      intro s hs
      have hn1 : 1 ≤ g.segments.length :=
        List.length_pos.mpr (List.ne_nil_of_mem hs)
      unfold stepSegment
      split_ifs with h
      · rfl
      · rw [hInv.len_eq, sub64_one _ hn1 hW]
    have hstep_pos : ∀ s : Segment,
        (stepSegment g.head g.snake.lenght s).pos =
          if 0 < s.move_countdown then s.pos else g.head := by
      intro s
      unfold stepSegment
      split_ifs <;> rfl
    unfold movement
    rw [if_neg hd]
    refine { len_eq := ?_, cd_nodup := ?_, cd_bound := ?_, pos_nodup := ?_,
             head_cond := ?_, head_in := Pos.move_dir_inBounds _ _ hInv.head_in,
             segs_in := ?_, foods_nodup := hInv.foods_nodup }
    · show g.snake.lenght = (movedSegments g).length
      rw [movedSegments, List.length_map]
      exact hInv.len_eq
    · show (cds (movedSegments g)).Nodup
      have hrw : cds (movedSegments g) =
          g.segments.map
            (fun s => (stepSegment g.head g.snake.lenght s).move_countdown) := by
        simp [cds, movedSegments, List.map_map]
      rw [hrw, nodup_map_iff_pairwise]
      have hpairC := (nodup_map_iff_pairwise Segment.move_countdown g.segments).mp
        hInv.cd_nodup
      refine hpairC.imp_of_mem ?_
      intro s t hs ht hne
      have hbs := hInv.cd_bound s hs
      have hbt := hInv.cd_bound t ht
      rw [hstep_cd s hs, hstep_cd t ht]
      split_ifs <;> omega
    · intro s' hs'
      show 0 ≤ s'.move_countdown ∧ s'.move_countdown < (movedSegments g).length + 0
      obtain ⟨s, hs, rfl⟩ := List.mem_map.mp hs'
      have hbs := hInv.cd_bound s hs
      have hn1 : 1 ≤ g.segments.length :=
        List.length_pos.mpr (List.ne_nil_of_mem hs)
      rw [movedSegments, List.length_map, hstep_cd s hs]
      split_ifs <;> omega
    · show (poss (movedSegments g)).Nodup
      have hrw : poss (movedSegments g) =
          g.segments.map (fun s => (stepSegment g.head g.snake.lenght s).pos) := by
        simp [poss, movedSegments, List.map_map]
      rw [hrw, nodup_map_iff_pairwise]
      have hpairC := (nodup_map_iff_pairwise Segment.move_countdown g.segments).mp
        hInv.cd_nodup
      have hpairP := (nodup_map_iff_pairwise Segment.pos g.segments).mp
        hInv.pos_nodup
      refine (hpairC.and hpairP).imp_of_mem ?_
      intro s t hs ht hand
      obtain ⟨hcd, hpos⟩ := hand
      have hbs := hInv.cd_bound s hs
      have hbt := hInv.cd_bound t ht
      rw [hstep_pos s, hstep_pos t]
      split_ifs with h1 h2 h2
      · exact hpos
      · intro he
        obtain ⟨ha1, -⟩ := hInv.head_cond s hs he
        omega
      · intro he
        obtain ⟨ha1, -⟩ := hInv.head_cond t ht he.symm
        omega
      · omega
    · intro s' hs' he
      exact absurd ⟨s', hs', he⟩ hd
    · intro s' hs'
      obtain ⟨s, hs, rfl⟩ := List.mem_map.mp hs'
      rw [hstep_pos s]
      split_ifs
      · exact hInv.segs_in s hs
      · exact hInv.head_in

lemma InvA_set_foods {a : Nat} {g : GameState} (h : InvA a g)
    (foods' : List Pos) (hnd : foods'.Nodup) :
    InvA a { g with foods := foods' } :=
  ⟨h.len_eq, h.cd_nodup, h.cd_bound, h.pos_nodup, h.head_cond, h.head_in,
    h.segs_in, hnd⟩

lemma InvA_set_next_dir {a : Nat} {g : GameState} (d : Dir) (h : InvA a g) :
    InvA a { g with snake := { g.snake with next_dir := d } } :=
  ⟨h.len_eq, h.cd_nodup, h.cd_bound, h.pos_nodup, h.head_cond, h.head_in,
    h.segs_in, h.foods_nodup⟩

/-- The `eat_food` system turns the `a = 0` phase into a full-invariant
state: eating shifts all countdowns up by one and adds the new maximal
countdown on the head cell, which no old segment occupies. -/
lemma eat_invJ {g : GameState} (h0 : InvA 0 g) : J (eat_food g) := by
  by_cases hm : g.head ∈ g.foods
  · obtain ⟨l1, l2, hsplit⟩ := List.append_of_mem hm
    have hnd := h0.foods_nodup
    rw [hsplit, List.nodup_append] at hnd
    obtain ⟨hnd1, hnd2, hdisj⟩ := hnd
    have h2 : g.head ∉ l2 := (List.nodup_cons.mp hnd2).1
    have h1 : g.head ∉ l1 := fun hin => hdisj hin (List.mem_cons_self _ _)
    have hndf : (l1 ++ l2).Nodup := by
      rw [List.nodup_append]
      exact ⟨hnd1, (List.nodup_cons.mp hnd2).2,
        fun x hx1 hx2 => hdisj hx1 (List.mem_cons_of_mem _ hx2)⟩
    rw [eat_food_single g l1 l2 hsplit h1 h2]
    have hL : (List.map incCountdown g.segments ++
        [({ move_countdown := g.snake.lenght + 1, pos := g.head } : Segment)]).length =
          g.segments.length + 1 := by
      simp
    have hcds : cds (List.map incCountdown g.segments ++
        [({ move_countdown := g.snake.lenght + 1, pos := g.head } : Segment)]) =
          (cds g.segments).map (fun c => c + 1) ++ [g.snake.lenght + 1] := by
      simp [cds, incCountdown, List.map_map]
    have hposs : poss (List.map incCountdown g.segments ++
        [({ move_countdown := g.snake.lenght + 1, pos := g.head } : Segment)]) =
          poss g.segments ++ [g.head] := by
      simp [poss, incCountdown, List.map_map]
    refine ⟨Or.inr ?_, ?_⟩
    · refine { len_eq := ?_, cd_nodup := ?_, cd_bound := ?_, pos_nodup := ?_,
               head_cond := ?_, head_in := h0.head_in, segs_in := ?_,
               foods_nodup := hndf }
      · show g.snake.lenght + 1 = _
        rw [hL, h0.len_eq]
      · show (cds _).Nodup
        rw [hcds, List.nodup_append]
        refine ⟨(nodup_map_iff_pairwise _ _).mpr
            (List.Pairwise.imp (fun h => by omega) h0.cd_nodup),
          List.nodup_singleton _, ?_⟩
        intro x hx1 hx2
        simp only [List.mem_singleton] at hx2
        subst hx2
        obtain ⟨c, hc, hcx⟩ := List.mem_map.mp hx1
        obtain ⟨s, hs, rfl⟩ := List.mem_map.mp hc
        have hb := h0.cd_bound s hs
        have hl := h0.len_eq
        omega
      · intro s' hs'
        rw [hL]
        rcases List.mem_append.mp hs' with hA | hnew
        · obtain ⟨s, hs, rfl⟩ := List.mem_map.mp hA
          have hb := h0.cd_bound s hs
          simp only [incCountdown]
          omega
        · simp only [List.mem_singleton] at hnew
          subst hnew
          have hl := h0.len_eq
          simp only []
          omega
      · show (poss _).Nodup
        rw [hposs, List.nodup_append]
        refine ⟨h0.pos_nodup, List.nodup_singleton _, ?_⟩
        intro x hx1 hx2
        simp only [List.mem_singleton] at hx2
        subst hx2
        obtain ⟨s, hs, he⟩ := List.mem_map.mp hx1
        exact absurd (h0.head_cond s hs he).1 (by omega)
      · intro s' hs' hpos
        rcases List.mem_append.mp hs' with hA | hnew
        · obtain ⟨s, hs, rfl⟩ := List.mem_map.mp hA
          have hpos' : s.pos = g.head := hpos
          exact absurd (h0.head_cond s hs hpos').1 (by omega)
        · simp only [List.mem_singleton] at hnew
          subst hnew
          refine ⟨rfl, ?_⟩
          show g.snake.lenght + 1 = _
          rw [hL, h0.len_eq]
      · intro s' hs'
        rcases List.mem_append.mp hs' with hA | hnew
        · obtain ⟨s, hs, rfl⟩ := List.mem_map.mp hA
          exact h0.segs_in s hs
        · simp only [List.mem_singleton] at hnew
          subst hnew
          exact h0.head_in
    · show g.head ∉ l1 ++ l2
      simp only [List.mem_append]
      exact fun h => h.elim h1 h2
  · rw [eat_food_none g hm]
    exact ⟨Or.inl h0, hm⟩

/-- The composite frame step `movement` then `eat_food` preserves the full
invariant. -/
lemma tick_invJ {g : GameState} (hJ : J g) : J (tickStep g) := by
  have h0 : InvA 0 (movement g) := by
    rcases hJ.1 with h | h
    · exact movement_invA (by omega) h
    · exact movement_invA (by omega) h
  exact eat_invJ h0

/-- A frame without a tick runs `eat_food` alone; under the invariant there
is no food under the head, so the state is unchanged. -/
lemma eat_alone_invJ {g : GameState} (hJ : J g) : J (eat_food g) := by
  rw [eat_food_none g hJ.2]
  exact hJ

lemma spawn_invJ (draws : List Pos) {g : GameState} (hJ : J g) :
    J (spawn_food draws g) := by
  unfold spawn_food
  by_cases hc : g.foods.length < FOOD_MAX_COUNT
  · rw [if_pos hc]
    cases e : spawnLoop (occupiedPositions g) (draws.take 5) with
    | none => exact hJ
    | some p =>
      obtain ⟨hnotocc, -⟩ := spawnLoop_some_not_occ _ _ _ e
      unfold occupiedPositions at hnotocc
      simp only [List.mem_cons, List.mem_append, not_or] at hnotocc
      obtain ⟨hph, hps, hpf⟩ := hnotocc
      have hfoods_nd : g.foods.Nodup := by
        rcases hJ.1 with h | h
        · exact h.foods_nodup
        · exact h.foods_nodup
      have hndf : (g.foods ++ [p]).Nodup := by
        rw [List.nodup_append]
        refine ⟨hfoods_nd, List.nodup_singleton _, ?_⟩
        intro x hx1 hx2
        simp only [List.mem_singleton] at hx2
        subst hx2
        exact hpf hx1
      refine ⟨?_, ?_⟩
      · rcases hJ.1 with h | h
        · exact Or.inl (InvA_set_foods h _ hndf)
        · exact Or.inr (InvA_set_foods h _ hndf)
      · show g.head ∉ g.foods ++ [p]
        simp only [List.mem_append, List.mem_singleton, not_or]
        exact ⟨hJ.2, fun he => hph he.symm⟩
  · rw [if_neg hc]
    exact hJ

lemma input_invJ (d : Dir) {g : GameState} (hJ : J g) : J (input d g) := by
  unfold input
  split_ifs
  · exact ⟨hJ.1.imp (InvA_set_next_dir d) (InvA_set_next_dir d), hJ.2⟩
  · exact hJ

/-- Every reachable state satisfies the full invariant. -/
lemma J_reachable {g : GameState} (h : Reachable g) : J g := by
  induction h with
  | init =>
    refine ⟨Or.inl ?_, ?_⟩
    · exact { len_eq := rfl, cd_nodup := List.nodup_nil, cd_bound := by decide,
              pos_nodup := List.nodup_nil, head_cond := by decide,
              head_in := by decide, segs_in := by decide,
              foods_nodup := List.nodup_nil }
    · decide
  | tick _ ih => exact tick_invJ ih
  | eat _ ih => exact eat_alone_invJ ih
  | spawn draws _ _ ih => exact spawn_invJ draws ih
  | steer d _ ih => exact input_invJ d ih

/-- C4: In every reachable state `snake.lenght` equals the number of live
segments, and it still does after a tick movement (including a death
reset), after a growth pass, after a food spawn and after an input commit. -/
theorem C4_length_equals_segments (g : GameState) (draws : List Pos) (d : Dir)
    (h : Reachable g) :
    g.snake.lenght = g.segments.length
  ∧ (movement g).snake.lenght = (movement g).segments.length
  ∧ (eat_food g).snake.lenght = (eat_food g).segments.length
  ∧ (spawn_food draws g).snake.lenght = (spawn_food draws g).segments.length
  ∧ (input d g).snake.lenght = (input d g).segments.length := by
  have hJ := J_reachable h
  refine ⟨J_len_eq hJ, ?_, J_len_eq (eat_alone_invJ hJ),
    J_len_eq (spawn_invJ draws hJ), J_len_eq (input_invJ d hJ)⟩
  rcases hJ.1 with h0 | h1
  · exact (movement_invA (by omega) h0).len_eq
  · exact (movement_invA (by omega) h1).len_eq

/-- Witness for C4 at the initial state. -/
theorem C4_length_equals_segments_witness :
    initState.snake.lenght = initState.segments.length
  ∧ (movement initState).snake.lenght = (movement initState).segments.length
  ∧ (eat_food initState).snake.lenght = (eat_food initState).segments.length
  ∧ (spawn_food [] initState).snake.lenght = (spawn_food [] initState).segments.length
  ∧ (input Dir.Up initState).snake.lenght = (input Dir.Up initState).segments.length :=
  C4_length_equals_segments initState [] Dir.Up Reachable.init

/-- C5 counterexample: the claim that after any non-fatal tick no segment
shares the head's position fails at the growth tick reached by spawning a
food at (1,0) and moving the head onto it: the tick eats the food and
spawns the new segment exactly on the head cell. -/
theorem C5_no_overlap_counterexample :
    ¬ (∀ g : GameState, Reachable g → ¬ deadTick g →
        (poss (tickStep g).segments).Nodup
      ∧ ∀ s ∈ (tickStep g).segments, s.pos ≠ (tickStep g).head) := by
  intro hclaim
  have hreach : Reachable (spawn_food [{ x := 1, y := 0 }] initState) :=
    Reachable.spawn [{ x := 1, y := 0 }] (by decide) Reachable.init
  have hnd : ¬ deadTick (spawn_food [{ x := 1, y := 0 }] initState) := by decide
  obtain ⟨-, h2⟩ := hclaim _ hreach hnd
  exact
    (h2 { move_countdown := 1, pos := { x := 1, y := 0 } } (by decide)) (by decide)

/-- C5 (amended): in every reachable state segment positions are pairwise
distinct; a segment can share the head's cell only if it is the segment a
growth event just created there (recognisable by its maximal countdown,
equal to `snake.lenght`); at the moment the movement phase of a non-fatal
tick completes, no segment shares the moved head's cell; and segment
positions are again pairwise distinct after the full tick. -/
theorem C5_no_overlap_amended (g : GameState) (h : Reachable g) :
    (poss g.segments).Nodup
  ∧ (∀ s ∈ g.segments, s.pos = g.head → s.move_countdown = g.snake.lenght)
  ∧ (∀ s ∈ (movement g).segments, s.pos ≠ (movement g).head)
  ∧ (poss (tickStep g).segments).Nodup := by
  have hJ := J_reachable h
  have h0m : InvA 0 (movement g) := by
    rcases hJ.1 with h0 | h1
    · exact movement_invA (by omega) h0
    · exact movement_invA (by omega) h1
  refine ⟨?_, ?_, ?_, ?_⟩
  · rcases hJ.1 with h0 | h1
    · exact h0.pos_nodup
    · exact h1.pos_nodup
  · intro s hs hpos
    rcases hJ.1 with h0 | h1
    · exact absurd (h0.head_cond s hs hpos).1 (by omega)
    · rw [(h1.head_cond s hs hpos).2, h1.len_eq]
  · intro s hs hpos
    exact absurd (h0m.head_cond s hs hpos).1 (by omega)
  · have hJ' := tick_invJ hJ
    rcases hJ'.1 with h0 | h1
    · exact h0.pos_nodup
    · exact h1.pos_nodup

/-- Witness for the amended C5 at the reachable state in which a growth
event has just created a segment under the head. -/
theorem C5_no_overlap_amended_witness :
    (poss (tickStep (spawn_food [{ x := 1, y := 0 }] initState)).segments).Nodup
  ∧ (∀ s ∈ (tickStep (spawn_food [{ x := 1, y := 0 }] initState)).segments,
      s.pos = (tickStep (spawn_food [{ x := 1, y := 0 }] initState)).head →
        s.move_countdown =
          (tickStep (spawn_food [{ x := 1, y := 0 }] initState)).snake.lenght)
  ∧ (∀ s ∈ (movement (tickStep (spawn_food [{ x := 1, y := 0 }] initState))).segments,
      s.pos ≠ (movement (tickStep (spawn_food [{ x := 1, y := 0 }] initState))).head)
  ∧ (poss (tickStep (tickStep (spawn_food [{ x := 1, y := 0 }] initState))).segments).Nodup :=
  C5_no_overlap_amended (tickStep (spawn_food [{ x := 1, y := 0 }] initState))
    (Reachable.tick (Reachable.spawn [{ x := 1, y := 0 }] (by decide) Reachable.init))

/-- C3: On the 12x12 wrapping grid, from the initial snake at (0,0) with
length 0 moving Right: one growth event (a food under the head) yields
length 1 and a single segment at (0,0) with countdown 1; the next tick
leaves the segment at (0,0) with countdown 0 and moves the head to (1,0);
the tick after that teleports the segment to (1,0), resetting its countdown
to 0, and moves the head to (2,0). -/
theorem C3_end_to_end_scenario :
    eat_food { initState with foods := [{ x := 0, y := 0 }] } =
      { snake := { dir := Dir.Right, next_dir := Dir.Right, lenght := 1 },
        head := { x := 0, y := 0 },
        segments := [{ move_countdown := 1, pos := { x := 0, y := 0 } }],
        foods := [] }
  ∧ movement (eat_food { initState with foods := [{ x := 0, y := 0 }] }) =
      { snake := { dir := Dir.Right, next_dir := Dir.Right, lenght := 1 },
        head := { x := 1, y := 0 },
        segments := [{ move_countdown := 0, pos := { x := 0, y := 0 } }],
        foods := [] }
  ∧ movement (movement (eat_food { initState with foods := [{ x := 0, y := 0 }] })) =
      { snake := { dir := Dir.Right, next_dir := Dir.Right, lenght := 1 },
        head := { x := 2, y := 0 },
        segments := [{ move_countdown := 0, pos := { x := 1, y := 0 } }],
        foods := [] } := by
  refine ⟨by decide, by decide, by decide⟩

/-- C6: With the wrapping boundary policy (the only policy the source
implements), moving Right from `(GAME_WIDTH-1, y)` yields `(0, y)`, moving
Up from `(x, 0)` yields `(x, GAME_HEIGHT-1)`, and every move from an
in-bounds position stays in `[0,GAME_WIDTH) x [0,GAME_HEIGHT)`. -/
theorem C6_wrap (p : Pos) (d : Dir) (x y : Int)
    (hx : 0 ≤ x ∧ x < GAME_WIDTH) (hy : 0 ≤ y ∧ y < GAME_HEIGHT)
    (hp : p.inBounds) :
    Pos.move_dir { x := GAME_WIDTH - 1, y := y } Dir.Right = { x := 0, y := y }
  ∧ Pos.move_dir { x := x, y := 0 } Dir.Up = { x := x, y := GAME_HEIGHT - 1 }
  ∧ (p.move_dir d).inBounds := by
  obtain ⟨hx1, hx2⟩ := hx
  obtain ⟨hy1, hy2⟩ := hy
  simp only [GAME_WIDTH, GAME_HEIGHT] at hx2 hy2
  refine ⟨?_, ?_, Pos.move_dir_inBounds p d hp⟩
  · simp only [Pos.move_dir, GAME_WIDTH, GAME_HEIGHT]
    split_ifs <;> simp_all <;> omega
  · simp only [Pos.move_dir, GAME_WIDTH, GAME_HEIGHT]
    split_ifs <;> simp_all <;> omega

/-- Witness for C6 at `p = (0, 0)`, `d = Down`, `x = 3`, `y = 7`. -/
theorem C6_wrap_witness :
    (0 ≤ (3 : Int) ∧ (3 : Int) < GAME_WIDTH)
  ∧ (0 ≤ (7 : Int) ∧ (7 : Int) < GAME_HEIGHT)
  ∧ (Pos.inBounds { x := 0, y := 0 })
  ∧ (Pos.move_dir { x := GAME_WIDTH - 1, y := 7 } Dir.Right = { x := 0, y := 7 }
      ∧ Pos.move_dir { x := 3, y := 0 } Dir.Up = { x := 3, y := GAME_HEIGHT - 1 }
      ∧ (Pos.move_dir { x := 0, y := 0 } Dir.Down).inBounds) :=
  ⟨by decide, by decide, by decide,
    C6_wrap { x := 0, y := 0 } Dir.Down 3 7 (by decide) (by decide) (by decide)⟩

/-- C7: `input` overwrites the pending direction `next_dir` with `d` unless
`d` is the reverse of the current direction, in which case the state is
unchanged; in particular a snake currently moving Right (with no other
pending intent) that receives a Left intent still has direction Right after
the next tick commits. -/
theorem C7_set_intent (g : GameState) (d : Dir) :
    (d ≠ g.snake.dir.rev → (input d g).snake.next_dir = d)
  ∧ (d = g.snake.dir.rev → input d g = g)
  ∧ (g.snake.dir = Dir.Right → g.snake.next_dir = Dir.Right →
      (movement (input Dir.Left g)).snake.dir = Dir.Right) := by
  refine ⟨fun h => ?_, fun h => ?_, fun hdir hnext => ?_⟩
  · simp [input, h]
  · simp [input, h]
  · have hrev : Dir.Left = g.snake.dir.rev := by rw [hdir]; rfl
    have hid : input Dir.Left g = g := by simp [input, hrev]
    rw [hid, movement_snake_dir, hnext]

/-- Witness for C7 at a concrete state with `dir = next_dir = Right`: a
Left intent is dropped and the committed direction stays Right, while an Up
intent is latched. -/
theorem C7_set_intent_witness :
    (input Dir.Left initState = initState)
  ∧ ((movement (input Dir.Left initState)).snake.dir = Dir.Right)
  ∧ ((input Dir.Up initState).snake.next_dir = Dir.Up) :=
  ⟨(C7_set_intent initState Dir.Left).2.1 rfl,
    (C7_set_intent initState Dir.Left).2.2 rfl rfl,
    (C7_set_intent initState Dir.Up).1 (by decide)⟩

/-- C8: When the tick's self-collision check fires (the moved head equals
some segment's updated position), the reset clears all segments and zeroes
`snake.lenght`, while the head keeps the position the move gave it, the
direction keeps the value the tick committed, and the foods are untouched. -/
theorem C8_death_reset (g : GameState) (h : deadTick g) :
    (movement g).segments = []
  ∧ (movement g).snake.lenght = 0
  ∧ (movement g).head = movedHead g
  ∧ (movement g).snake.dir = g.snake.next_dir
  ∧ (movement g).snake.next_dir = g.snake.next_dir
  ∧ (movement g).foods = g.foods := by
  unfold movement
  rw [if_pos h]
  exact ⟨rfl, rfl, rfl, rfl, rfl, rfl⟩

/-- Witness for C8 at a concrete state whose tick is fatal: head (0,0)
moving Right into a segment sitting at (1,0). -/
theorem C8_death_reset_witness :
    deadTick { snake := { dir := Dir.Right, next_dir := Dir.Right, lenght := 1 },
               head := { x := 0, y := 0 },
               segments := [{ move_countdown := 5, pos := { x := 1, y := 0 } }],
               foods := [{ x := 4, y := 4 }] }
  ∧ ((movement { snake := { dir := Dir.Right, next_dir := Dir.Right, lenght := 1 },
                 head := { x := 0, y := 0 },
                 segments := [{ move_countdown := 5, pos := { x := 1, y := 0 } }],
                 foods := [{ x := 4, y := 4 }] }).segments = []
    ∧ (movement { snake := { dir := Dir.Right, next_dir := Dir.Right, lenght := 1 },
                  head := { x := 0, y := 0 },
                  segments := [{ move_countdown := 5, pos := { x := 1, y := 0 } }],
                  foods := [{ x := 4, y := 4 }] }).snake.lenght = 0
    ∧ (movement { snake := { dir := Dir.Right, next_dir := Dir.Right, lenght := 1 },
                  head := { x := 0, y := 0 },
                  segments := [{ move_countdown := 5, pos := { x := 1, y := 0 } }],
                  foods := [{ x := 4, y := 4 }] }).head =
        movedHead { snake := { dir := Dir.Right, next_dir := Dir.Right, lenght := 1 },
                    head := { x := 0, y := 0 },
                    segments := [{ move_countdown := 5, pos := { x := 1, y := 0 } }],
                    foods := [{ x := 4, y := 4 }] }
    ∧ (movement { snake := { dir := Dir.Right, next_dir := Dir.Right, lenght := 1 },
                  head := { x := 0, y := 0 },
                  segments := [{ move_countdown := 5, pos := { x := 1, y := 0 } }],
                  foods := [{ x := 4, y := 4 }] }).snake.dir = Dir.Right
    ∧ (movement { snake := { dir := Dir.Right, next_dir := Dir.Right, lenght := 1 },
                  head := { x := 0, y := 0 },
                  segments := [{ move_countdown := 5, pos := { x := 1, y := 0 } }],
                  foods := [{ x := 4, y := 4 }] }).snake.next_dir = Dir.Right
    ∧ (movement { snake := { dir := Dir.Right, next_dir := Dir.Right, lenght := 1 },
                  head := { x := 0, y := 0 },
                  segments := [{ move_countdown := 5, pos := { x := 1, y := 0 } }],
                  foods := [{ x := 4, y := 4 }] }).foods = [{ x := 4, y := 4 }]) :=
  ⟨by decide,
    C8_death_reset { snake := { dir := Dir.Right, next_dir := Dir.Right, lenght := 1 },
                     head := { x := 0, y := 0 },
                     segments := [{ move_countdown := 5, pos := { x := 1, y := 0 } }],
                     foods := [{ x := 4, y := 4 }] } (by decide)⟩

/-- C10: Under the invariant that `snake.lenght` equals the number of live
segments, the existence of a segment to process forces `lenght >= 1`, so
the `u64` expression `snake.lenght - 1` computed when a countdown reaches 0
does not underflow: it equals the exact natural subtraction. -/
theorem C10_no_underflow (g : GameState)
    (hinv : g.snake.lenght = g.segments.length)
    (hne : g.segments ≠ [])
    (hu : g.snake.lenght < U64_MOD) :
    1 ≤ g.snake.lenght
  ∧ sub64 g.snake.lenght 1 = g.snake.lenght - 1
  ∧ ∀ s ∈ g.segments, s.move_countdown = 0 →
      stepSegment g.head g.snake.lenght s =
        { move_countdown := g.snake.lenght - 1, pos := g.head } := by
  have hlen : 1 ≤ g.snake.lenght := by
    rw [hinv]
    exact List.length_pos.mpr hne
  refine ⟨hlen, sub64_one _ hlen hu, fun s hs h0 => ?_⟩
  unfold stepSegment
  rw [if_neg (by omega), sub64_one _ hlen hu]

/-- Witness for C10 at a concrete length-1 state whose only segment has
countdown 0. -/
theorem C10_no_underflow_witness :
    ({ snake := { dir := Dir.Right, next_dir := Dir.Right, lenght := 1 },
       head := { x := 0, y := 0 },
       segments := [{ move_countdown := 0, pos := { x := 5, y := 5 } }],
       foods := [] } : GameState).snake.lenght =
      ({ snake := { dir := Dir.Right, next_dir := Dir.Right, lenght := 1 },
         head := { x := 0, y := 0 },
         segments := [{ move_countdown := 0, pos := { x := 5, y := 5 } }],
         foods := [] } : GameState).segments.length
  ∧ (1 ≤ (1 : Nat)
    ∧ sub64 1 1 = 1 - 1
    ∧ ∀ s ∈ [({ move_countdown := 0, pos := { x := 5, y := 5 } } : Segment)],
        s.move_countdown = 0 →
          stepSegment { x := 0, y := 0 } 1 s =
            { move_countdown := 1 - 1, pos := { x := 0, y := 0 } }) :=
  ⟨rfl,
    C10_no_underflow { snake := { dir := Dir.Right, next_dir := Dir.Right, lenght := 1 },
                       head := { x := 0, y := 0 },
                       segments := [{ move_countdown := 0, pos := { x := 5, y := 5 } }],
                       foods := [] } rfl (by decide) (by norm_num [U64_MOD])⟩
